import Mathlib

/-!
Verification of the supac reconciliation engine against its specification.

The development shallowly embeds the Rust sources of the repository:

* a JSON fragment (strings, arrays, objects) together with a single-value
  parser modelling the observable behaviour of the external
  serde_json::from_str used by src/backends/cargo/mod.rs: a successful
  parse consumes the whole input up to trailing whitespace, and a failed
  parse reports the zero-based character offset at which parsing could not
  continue (the Rust code computes this offset as column() - 1 of the
  reported error position; the log files in question are single-line
  ASCII, where column() - 1 is exactly the character offset);
* the incremental multi-document decoder parse_binstall_cratespec and the
  read-loop of get_installed_packages_binary from
  src/backends/cargo/mod.rs;
* the nu_protocol value model (records, lists, strings, booleans,
  closures with a captures list) and the per-backend declarative parsers
  value_to_pkgspec / value_to_pinspec / extract_remote of the cargo, arch
  and flatpak backends;
* trace-producing models of the install / remove operations of the cargo,
  arch, flatpak and rustup backends, where every external command
  invocation and hook execution is recorded as an explicit event, with
  command success, prompt answers and probe outputs supplied as
  parameters;
* the backend iteration loop of src/main.rs.

Effectful Rust code (subprocess calls, file reads, prompts) is modelled by
passing the environment explicitly: file contents arrive as
Option (List Char) (none models a read error), command success as a
predicate on the argument vector, probe output as lists of strings.
-/

/-! ## A JSON fragment and a model of serde_json single-value parsing

The fragment covers strings without escape sequences, arrays and objects,
which includes every document the binstall log contains
(objects of the shape with a string name field and an array-of-strings
bins field, plus further string and array fields).
-/

inductive Json where
  | str (s : List Char) : Json
  | arr (xs : List Json) : Json
  | obj (ms : List (List Char × Json)) : Json

/-- A string literal of the fragment is serialized verbatim, so its
characters must not contain a quote or a backslash (serde would escape
them; the log writer only emits crate and binary names). -/
def strOk (s : List Char) : Bool :=
  s.all (fun c => c ≠ '\"' && c ≠ '\\')

mutual

/-- Well-formedness of a value of the fragment: every string (and every
object key) is escape-free in the sense of strOk. -/
def wfJ : Json → Bool
  | .str s => strOk s
  | .arr xs => wfElems xs
  | .obj ms => wfMembers ms

def wfElems : List Json → Bool
  | [] => true
  | x :: xs => wfJ x && wfElems xs

def wfMembers : List (List Char × Json) → Bool
  | [] => true
  | (k, v) :: ms => strOk k && wfJ v && wfMembers ms

end

mutual

/-- Canonical serialization of the fragment (no interior whitespace), the
form in which serde_json writes the binstall log entries. -/
def ser : Json → List Char
  | .str s => '\"' :: s ++ ['\"']
  | .arr xs => '[' :: serElems xs ++ [']']
  | .obj ms => '\x7b' :: serMembers ms ++ ['\x7d']

def serElems : List Json → List Char
  | [] => []
  | x :: xs => ser x ++ serElemsTail xs

def serElemsTail : List Json → List Char
  | [] => []
  | x :: xs => ',' :: ser x ++ serElemsTail xs

def serMembers : List (List Char × Json) → List Char
  | [] => []
  | (k, v) :: ms => '\"' :: k ++ '\"' :: ':' :: ser v ++ serMembersTail ms

def serMembersTail : List (List Char × Json) → List Char
  | [] => []
  | (k, v) :: ms => ',' :: '\"' :: k ++ '\"' :: ':' :: ser v ++ serMembersTail ms

end

def isWs (c : Char) : Bool :=
  c = ' ' || c = '\n' || c = '\t' || c = '\r'

def skipWs : List Char → List Char
  | [] => []
  | c :: cs => if isWs c then skipWs cs else c :: cs

/-- Body of a JSON string after the opening quote: consume characters up
to the closing quote. On unterminated input the error carries the suffix
at which parsing got stuck (here the empty suffix: end of input). -/
def parseStrBody : List Char → Except (List Char) (List Char × List Char)
  | [] => .error []
  | c :: cs =>
    if c = '\"' then .ok ([], cs)
    else
      match parseStrBody cs with
      | .ok (t, r) => .ok (c :: t, r)
      | .error e => .error e

mutual

/-- Single JSON value parser with explicit fuel (each recursive descent
step consumes one unit; from_str supplies length + 1 which always
suffices, see need_le_ser_length and parse_roundtrip). A parse error
carries the remaining suffix at which the parser got stuck, from which
from_str computes the character offset serde_json reports. -/
def parseValue : Nat → List Char → Except (List Char) (Json × List Char)
  | 0, s => .error s
  | fuel + 1, s =>
    match skipWs s with
    | [] => .error []
    | '\"' :: cs =>
      match parseStrBody cs with
      | .ok (t, r) => .ok (.str t, r)
      | .error e => .error e
    | '[' :: cs =>
      match skipWs cs with
      | ']' :: r => .ok (.arr [], r)
      | cs2 =>
        match parseElems fuel cs2 with
        | .ok (xs, r) => .ok (.arr xs, r)
        | .error e => .error e
    | '\x7b' :: cs =>
      match skipWs cs with
      | '\x7d' :: r => .ok (.obj [], r)
      | cs2 =>
        match parseMembers fuel cs2 with
        | .ok (ms, r) => .ok (.obj ms, r)
        | .error e => .error e
    | s2 => .error s2

def parseElems : Nat → List Char → Except (List Char) (List Json × List Char)
  | 0, s => .error s
  | fuel + 1, s =>
    match parseValue fuel s with
    | .error e => .error e
    | .ok (v, r) =>
      match skipWs r with
      | ',' :: r2 =>
        match parseElems fuel r2 with
        | .ok (vs, r3) => .ok (v :: vs, r3)
        | .error e => .error e
      | ']' :: r2 => .ok ([v], r2)
      | r2 => .error r2

def parseMembers : Nat → List Char → Except (List Char) (List (List Char × Json) × List Char)
  | 0, s => .error s
  | fuel + 1, s =>
    match skipWs s with
    | '\"' :: cs =>
      match parseStrBody cs with
      | .error e => .error e
      | .ok (k, r) =>
        match skipWs r with
        | ':' :: r2 =>
          match parseValue fuel r2 with
          | .error e => .error e
          | .ok (v, r3) =>
            match skipWs r3 with
            | ',' :: r4 =>
              match parseMembers fuel r4 with
              | .ok (ms, r5) => .ok ((k, v) :: ms, r5)
              | .error e => .error e
            | '\x7d' :: r4 => .ok ([(k, v)], r4)
            | r4 => .error r4
        | r2 => .error r2
    | s2 => .error s2

end

/-- Model of serde_json::from_str for one value of the fragment: parse a
single value, allow trailing whitespace, and on any failure report the
zero-based character offset at which parsing could not continue (for a
complete value followed by trailing data, the offset of the first
non-whitespace trailing character; this is the column() - 1 the Rust
code computes from the serde error). -/
def from_str (s : List Char) : Except Nat Json :=
  match parseValue (s.length + 1) s with
  | .ok (v, rest) =>
    match skipWs rest with
    | [] => .ok v
    | t => .error (s.length - t.length)
  | .error t => .error (s.length - t.length)

/-! ## The binstall log decoder (src/backends/cargo/mod.rs) -/

/-- Model of serde_json::Value::as_object. -/
def as_object : Json → Option (List (List Char × Json))
  | .obj ms => some ms
  | _ => none

/-- Model of serde_json::Value::as_str. -/
def as_str : Json → Option (List Char)
  | .str s => some s
  | _ => none

/-- Model of serde_json::Value::as_array. -/
def as_array : Json → Option (List Json)
  | .arr xs => some xs
  | _ => none

/-- Lookup in a parsed object, mirroring serde_json's map semantics where
a repeated key keeps the last occurrence parsed. -/
def objGet (ms : List (List Char × Json)) (k : List Char) : Option Json :=
  (ms.reverse.find? (fun m => m.1 = k)).map Prod.snd

/-- Model of mapping Value::as_str over a bins array and failing if any
element is not a string. -/
def allStrings : List Json → Option (List (List Char))
  | [] => some []
  | x :: xs =>
    match as_str x with
    | none => none
    | some s =>
      match allStrings xs with
      | none => none
      | some ss => some (s :: ss)

/-- Error cases of parse_binstall_cratespec, one per early return of the
Rust function. segmentParse is the propagated serde error when the slice
taken at the reported offset itself fails to parse. -/
inductive LogErr where
  | segmentParse : LogErr
  | notObject : LogErr
  | noName : LogErr
  | nameNotString : LogErr
  | noBins : LogErr
  | binsNotArray : LogErr
  | binNotString : LogErr
  deriving DecidableEq

def nameKey : List Char := "name".data

def binsKey : List Char := "bins".data

/-- Field extraction of parse_binstall_cratespec: the parsed value must
be an object with a string name field and an array-of-strings bins
field. -/
def extract_entry (pkgv : Json) : Except LogErr (List Char × List (List Char)) :=
  match as_object pkgv with
  | none => .error .notObject
  | some pkg =>
    match objGet pkg nameKey with
    | none => .error .noName
    | some namev =>
      match as_str namev with
      | none => .error .nameNotString
      | some name =>
        match objGet pkg binsKey with
        | none => .error .noBins
        | some binsv =>
          match as_array binsv with
          | none => .error .binsNotArray
          | some binsArr =>
            match allStrings binsArr with
            | none => .error .binNotString
            | some bins => .ok (name, bins)

/-- Model of parse_binstall_cratespec: try to parse the whole remaining
buffer as one JSON value; on success the remainder is empty; on failure
slice the buffer at the reported offset (column() - 1), parse the slice
as one value, and return the rest of the buffer from the offset onward.
The parsed value is then destructured by extract_entry. -/
def parse_binstall_cratespec (cratespec : List Char) :
    Except LogErr (List Char × List (List Char) × List Char) :=
  let step : Except LogErr (Json × List Char) :=
    match from_str cratespec with
    | .ok val => .ok (val, [])
    | .error idx =>
      let segment := cratespec.take idx
      match from_str segment with
      | .ok result => .ok (result, cratespec.drop idx)
      | .error _ => .error .segmentParse
  match step with
  | .error e => .error e
  | .ok (pkgv, remaining) =>
    match extract_entry pkgv with
    | .error e => .error e
    | .ok (name, bins) => .ok (name, bins, remaining)

theorem from_str_nil : from_str [] = .error 0 := rfl

/-- Progress of the decoder: a successful call on a non-empty buffer
strictly consumes at least one character. -/
theorem parse_binstall_consumes {s : List Char} {name : List Char}
    {bins : List (List Char)} {rem : List Char} (hs : s ≠ [])
    (h : parse_binstall_cratespec s = .ok (name, bins, rem)) :
    rem.length < s.length := by
  have hlen : 0 < s.length := List.length_pos.mpr hs
  unfold parse_binstall_cratespec at h
  rcases hstep : from_str s with idx | val
  · rw [hstep] at h
    simp only at h
    rcases hseg : from_str (s.take idx) with e2 | res
    · rw [hseg] at h
      simp at h
    · rw [hseg] at h
      simp only at h
      rcases hidx : idx with _ | n
      · subst hidx
        rw [List.take_zero, from_str_nil] at hseg
        exact absurd hseg (by simp)
      · rcases hex : extract_entry res with e | nb
        · rw [hex] at h
          simp at h
        · rw [hex] at h
          obtain ⟨n1, b1⟩ := nb
          simp only [Except.ok.injEq, Prod.mk.injEq] at h
          have hrem : rem = s.drop idx := h.2.2.symm

          subst hrem
          rw [List.length_drop]
          omega
  · rw [hstep] at h
    simp only at h
    rcases hex : extract_entry val with e | nb
    · rw [hex] at h
      simp at h
    · rw [hex] at h
      obtain ⟨n1, b1⟩ := nb
      simp only [Except.ok.injEq, Prod.mk.injEq] at h
      have hrem : rem = [] := h.2.2.symm
      subst hrem
      simpa using hlen

/-- The read-loop of get_installed_packages_binary: repeatedly call the
incremental decoder while the buffer is non-empty, collecting the parsed
(name, bins) pairs in decode order (the Rust code inserts them into a
HashMap keyed by name; the insertion sequence is this list). Termination
is by parse_binstall_consumes: every successful step strictly shrinks
the buffer. -/
def decode_binstall_log (cratespec : List Char) :
    Except LogErr (List (List Char × List (List Char))) :=
  if h : cratespec = [] then .ok []
  else
    match h2 : parse_binstall_cratespec cratespec with
    | .error e => .error e
    | .ok (name, bins, remaining) =>
      match decode_binstall_log remaining with
      | .error e => .error e
      | .ok rest => .ok ((name, bins) :: rest)
termination_by cratespec.length
decreasing_by exact parse_binstall_consumes h h2

/-! ## Round-trip correctness of the single-value parser on the fragment -/

mutual

/-- Fuel needed by parseValue to parse the serialization of a value; see
need_le_ser_length. -/
def need : Json → Nat
  | .str _ => 1
  | .arr xs => 1 + needElems xs
  | .obj ms => 1 + needMembers ms

def needElems : List Json → Nat
  | [] => 0
  | x :: xs => 1 + max (need x) (needElems xs)

def needMembers : List (List Char × Json) → Nat
  | [] => 0
  | (_, v) :: ms => 1 + max (need v) (needMembers ms)

end

theorem need_pos (v : Json) : 1 ≤ need v := by
  cases v <;> simp [need]

theorem needElems_pos {xs : List Json} (h : xs ≠ []) : 1 ≤ needElems xs := by
  cases xs with
  | nil => exact absurd rfl h
  | cons x xs => simp [needElems]

theorem needMembers_pos {ms : List (List Char × Json)} (h : ms ≠ []) : 1 ≤ needMembers ms := by
  cases ms with
  | nil => exact absurd rfl h
  | cons m ms => obtain ⟨k, v⟩ := m; simp [needMembers]

theorem ser_length_pos (v : Json) : 1 ≤ (ser v).length := by
  cases v <;> simp [ser]

/-- The serialization of any value starts with a quote, an opening
bracket or an opening brace: a non-whitespace character distinct from
the closing delimiters and separators the parser branches on. -/
theorem ser_head (v : Json) :
    ∃ c t, ser v = c :: t ∧ isWs c = false ∧ c ≠ ']' ∧ c ≠ '\x7d' ∧ c ≠ ',' := by
  cases v with
  | str s => exact ⟨'\"', s ++ ['\"'], by simp [ser], by decide, by decide, by decide, by decide⟩
  | arr xs => exact ⟨'[', serElems xs ++ [']'], by simp [ser], by decide, by decide, by decide, by decide⟩
  | obj ms => exact ⟨'\x7b', serMembers ms ++ ['\x7d'], by simp [ser], by decide, by decide, by decide, by decide⟩

mutual

theorem need_le_ser_length : ∀ v : Json, need v ≤ (ser v).length
  | .str s => by simp [need, ser]
  | .arr [] => by simp [need, needElems, ser, serElems]
  | .arr (x :: xs) => by
    have h1 := need_le_ser_length x
    have h2 := needElems_le_tail xs
    have h3 := ser_length_pos x
    simp only [need, needElems, ser, serElems, List.length_cons, List.length_append]
    omega
  | .obj [] => by simp [need, needMembers, ser, serMembers]
  | .obj ((k, v) :: ms) => by
    have h1 := need_le_ser_length v
    have h2 := needMembers_le_tail ms
    simp only [need, needMembers, ser, serMembers, List.length_cons, List.length_append]
    omega

theorem needElems_le_tail : ∀ xs : List Json, needElems xs ≤ (serElemsTail xs).length + 1
  | [] => by simp [needElems, serElemsTail]
  | x :: xs => by
    have h1 := need_le_ser_length x
    have h2 := needElems_le_tail xs
    simp only [needElems, serElemsTail, List.length_cons, List.length_append]
    omega

theorem needMembers_le_tail :
    ∀ ms : List (List Char × Json), needMembers ms ≤ (serMembersTail ms).length + 1
  | [] => by simp [needMembers, serMembersTail]
  | (k, v) :: ms => by
    have h1 := need_le_ser_length v
    have h2 := needMembers_le_tail ms
    simp only [needMembers, serMembersTail, List.length_cons, List.length_append]
    omega

end

theorem skipWs_cons_of_not_ws {c : Char} (l : List Char) (h : isWs c = false) :
    skipWs (c :: l) = c :: l := by
  simp [skipWs, h]

theorem parseStrBody_roundtrip {s : List Char} (rest : List Char) (h : strOk s = true) :
    parseStrBody (s ++ '\"' :: rest) = .ok (s, rest) := by
  induction s with
  | nil => rfl
  | cons c cs ih =>
    have hc : (c ≠ '\"' && c ≠ '\\') = true := by
      have := (List.all_eq_true.mp h) c (by simp)
      simpa using this
    have hcs : strOk cs = true := by
      refine List.all_eq_true.mpr ?_
      intro x hx
      exact (List.all_eq_true.mp h) x (by simp [hx])
    have hcq : ¬ c = '\"' := by
      intro he
      rw [he] at hc
      simp at hc
    simp only [List.cons_append, parseStrBody, if_neg hcq]
    have harg : cs.append ('\"' :: rest) = cs ++ '\"' :: rest := rfl
    rw [harg, ih hcs]

theorem parseValue_succ_quote (fuel : Nat) (l : List Char) :
    parseValue (fuel + 1) ('\"' :: l) =
      match parseStrBody l with
      | .ok (t, r) => .ok (.str t, r)
      | .error e => .error e := rfl

theorem parseValue_succ_lbrack (fuel : Nat) (l : List Char) :
    parseValue (fuel + 1) ('[' :: l) =
      match skipWs l with
      | ']' :: r => .ok (.arr [], r)
      | cs2 =>
        match parseElems fuel cs2 with
        | .ok (xs, r) => .ok (.arr xs, r)
        | .error e => .error e := rfl

theorem parseValue_succ_lbrace (fuel : Nat) (l : List Char) :
    parseValue (fuel + 1) ('\x7b' :: l) =
      match skipWs l with
      | '\x7d' :: r => .ok (.obj [], r)
      | cs2 =>
        match parseMembers fuel cs2 with
        | .ok (ms, r) => .ok (.obj ms, r)
        | .error e => .error e := rfl

theorem parseMembers_succ_quote (fuel : Nat) (l : List Char) :
    parseMembers (fuel + 1) ('\"' :: l) =
      match parseStrBody l with
      | .error e => .error e
      | .ok (k, r) =>
        match skipWs r with
        | ':' :: r2 =>
          match parseValue fuel r2 with
          | .error e => .error e
          | .ok (v, r3) =>
            match skipWs r3 with
            | ',' :: r4 =>
              match parseMembers fuel r4 with
              | .ok (ms, r5) => .ok ((k, v) :: ms, r5)
              | .error e => .error e
            | '\x7d' :: r4 => .ok ([(k, v)], r4)
            | r4 => .error r4
        | r2 => .error r2 := rfl

theorem parseValue_succ_arr_of_head {fuel : Nat} {c : Char} {l r : List Char} {xs : List Json}
    (hws : isWs c = false) (hne : c ≠ ']')
    (hE : parseElems fuel (c :: l) = .ok (xs, r)) :
    parseValue (fuel + 1) ('[' :: c :: l) = .ok (.arr xs, r) := by
  rw [parseValue_succ_lbrack, skipWs_cons_of_not_ws _ hws]
  split
  · rename_i r2 heq
    injection heq with h1 _
    exact absurd h1 hne
  · rw [hE]

theorem parseValue_succ_obj_of_head {fuel : Nat} {c : Char} {l r : List Char}
    {ms : List (List Char × Json)}
    (hws : isWs c = false) (hne : c ≠ '\x7d')
    (hM : parseMembers fuel (c :: l) = .ok (ms, r)) :
    parseValue (fuel + 1) ('\x7b' :: c :: l) = .ok (.obj ms, r) := by
  rw [parseValue_succ_lbrace, skipWs_cons_of_not_ws _ hws]
  split
  · rename_i r2 heq
    injection heq with h1 _
    exact absurd h1 hne
  · rw [hM]

theorem parseElems_succ_close {fuel : Nat} {s r2 : List Char} {v : Json}
    (hpv : parseValue fuel s = .ok (v, ']' :: r2)) :
    parseElems (fuel + 1) s = .ok ([v], r2) := by
  have hs : skipWs (']' :: r2) = ']' :: r2 := skipWs_cons_of_not_ws _ (by decide)
  simp only [parseElems, hpv, hs]

theorem parseElems_succ_comma {fuel : Nat} {s x : List Char} {v : Json} {vs : List Json}
    {r3 : List Char}
    (hpv : parseValue fuel s = .ok (v, ',' :: x)) (hrec : parseElems fuel x = .ok (vs, r3)) :
    parseElems (fuel + 1) s = .ok (v :: vs, r3) := by
  have hs : skipWs (',' :: x) = ',' :: x := skipWs_cons_of_not_ws _ (by decide)
  simp only [parseElems, hpv, hs, hrec]

theorem parseMembers_succ_close {fuel : Nat} {l k r2 r4 : List Char} {v : Json}
    (hsb : parseStrBody l = .ok (k, ':' :: r2))
    (hpv : parseValue fuel r2 = .ok (v, '\x7d' :: r4)) :
    parseMembers (fuel + 1) ('\"' :: l) = .ok ([(k, v)], r4) := by
  have hs1 : skipWs (':' :: r2) = ':' :: r2 := skipWs_cons_of_not_ws _ (by decide)
  have hs2 : skipWs ('\x7d' :: r4) = '\x7d' :: r4 := skipWs_cons_of_not_ws _ (by decide)
  rw [parseMembers_succ_quote]
  simp only [hsb, hs1, hpv, hs2]

theorem parseMembers_succ_comma {fuel : Nat} {l k r2 r4 r5 : List Char} {v : Json}
    {ms : List (List Char × Json)}
    (hsb : parseStrBody l = .ok (k, ':' :: r2))
    (hpv : parseValue fuel r2 = .ok (v, ',' :: r4))
    (hrec : parseMembers fuel r4 = .ok (ms, r5)) :
    parseMembers (fuel + 1) ('\"' :: l) = .ok ((k, v) :: ms, r5) := by
  have hs1 : skipWs (':' :: r2) = ':' :: r2 := skipWs_cons_of_not_ws _ (by decide)
  have hs2 : skipWs (',' :: r4) = ',' :: r4 := skipWs_cons_of_not_ws _ (by decide)
  rw [parseMembers_succ_quote]
  simp only [hsb, hs1, hpv, hs2, hrec]

/-- Round-trip correctness of the fragment parser: given enough fuel, the
parser consumes exactly the serialization of a well-formed value (array
element list, member list) and returns that value together with the
untouched remainder of the input. -/
theorem parse_roundtrip : ∀ fuel : Nat,
    (∀ v rest, wfJ v = true → need v ≤ fuel →
      parseValue fuel (ser v ++ rest) = .ok (v, rest)) ∧
    (∀ xs rest, xs ≠ [] → wfElems xs = true → needElems xs ≤ fuel →
      parseElems fuel (serElems xs ++ ']' :: rest) = .ok (xs, rest)) ∧
    (∀ ms rest, ms ≠ [] → wfMembers ms = true → needMembers ms ≤ fuel →
      parseMembers fuel (serMembers ms ++ '\x7d' :: rest) = .ok (ms, rest)) := by
  intro fuel
  induction fuel with
  | zero =>
    refine ⟨?_, ?_, ?_⟩
    · intro v rest _ hneed
      exact absurd hneed (by have := need_pos v; omega)
    · intro xs rest hne _ hneed
      exact absurd hneed (by have := needElems_pos hne; omega)
    · intro ms rest hne _ hneed
      exact absurd hneed (by have := needMembers_pos hne; omega)
  | succ fuel ih =>
    obtain ⟨ihV, ihE, ihM⟩ := ih
    refine ⟨?_, ?_, ?_⟩
    · intro v rest hwf hneed
      cases v with
      | str s =>
        have harg : ser (Json.str s) ++ rest = '\"' :: (s ++ '\"' :: rest) := by
          simp [ser]
        rw [harg, parseValue_succ_quote,
          parseStrBody_roundtrip rest (by simpa [wfJ] using hwf)]
      | arr xs =>
        cases xs with
        | nil =>
          have harg : ser (Json.arr []) ++ rest = '[' :: ']' :: rest := by
            simp [ser, serElems]
          rw [harg]
          rfl
        | cons x xs =>
          obtain ⟨c, t, hc, hcws, hc1, hc2, hc3⟩ := ser_head x
          have harg : ser (Json.arr (x :: xs)) ++ rest
              = '[' :: c :: (t ++ (serElemsTail xs ++ ']' :: rest)) := by
            simp [ser, serElems, hc]
          rw [harg]
          refine parseValue_succ_arr_of_head hcws hc1 ?_
          have hfold : c :: (t ++ (serElemsTail xs ++ ']' :: rest))
              = serElems (x :: xs) ++ ']' :: rest := by
            simp [serElems, hc]
          rw [hfold]
          refine ihE (x :: xs) rest (by simp) (by simpa [wfJ] using hwf) ?_
          have hn : need (Json.arr (x :: xs)) = 1 + needElems (x :: xs) := by simp [need]
          omega
      | obj ms =>
        cases ms with
        | nil =>
          have harg : ser (Json.obj []) ++ rest = '\x7b' :: '\x7d' :: rest := by
            simp [ser, serMembers]
          rw [harg]
          rfl
        | cons m ms =>
          obtain ⟨k, v⟩ := m
          have harg : ser (Json.obj ((k, v) :: ms)) ++ rest
              = '\x7b' :: '\"' :: (k ++ '\"' :: ':' :: (ser v ++ (serMembersTail ms ++ '\x7d' :: rest))) := by
            simp [ser, serMembers]
          rw [harg]
          refine parseValue_succ_obj_of_head (by decide) (by decide) ?_
          have hfold : ('\"' :: (k ++ '\"' :: ':' :: (ser v ++ (serMembersTail ms ++ '\x7d' :: rest))) : List Char)
              = serMembers ((k, v) :: ms) ++ '\x7d' :: rest := by
            simp [serMembers]
          rw [hfold]
          refine ihM ((k, v) :: ms) rest (by simp) (by simpa [wfJ] using hwf) ?_
          have hn : need (Json.obj ((k, v) :: ms)) = 1 + needMembers ((k, v) :: ms) := by
            simp [need]
          omega
    · intro xs rest hne hwf hneed
      cases xs with
      | nil => exact absurd rfl hne
      | cons x xs =>
        have hwx : wfJ x = true ∧ wfElems xs = true := by
          simpa [wfElems, Bool.and_eq_true] using hwf
        have hnd : needElems (x :: xs) = 1 + max (need x) (needElems xs) := by
          simp [needElems]
        have hnx : need x ≤ fuel := by omega
        have hnxs : needElems xs ≤ fuel := by omega
        cases xs with
        | nil =>
          have harg : serElems [x] ++ ']' :: rest = ser x ++ ']' :: rest := by
            simp [serElems, serElemsTail]
          rw [harg]
          exact parseElems_succ_close (ihV x (']' :: rest) hwx.1 hnx)
        | cons y ys =>
          have harg : serElems (x :: y :: ys) ++ ']' :: rest
              = ser x ++ (',' :: (serElems (y :: ys) ++ ']' :: rest)) := by
            simp [serElems, serElemsTail]
          rw [harg]
          exact parseElems_succ_comma
            (ihV x (',' :: (serElems (y :: ys) ++ ']' :: rest)) hwx.1 hnx)
            (ihE (y :: ys) rest (by simp) hwx.2 hnxs)
    · intro ms rest hne hwf hneed
      cases ms with
      | nil => exact absurd rfl hne
      | cons m ms =>
        obtain ⟨k, v⟩ := m
        have hwm : (strOk k = true ∧ wfJ v = true) ∧ wfMembers ms = true := by
          simpa [wfMembers, Bool.and_eq_true] using hwf
        have hnd : needMembers ((k, v) :: ms) = 1 + max (need v) (needMembers ms) := by
          simp [needMembers]
        have hnv : need v ≤ fuel := by omega
        have hnms : needMembers ms ≤ fuel := by omega
        cases ms with
        | nil =>
          have harg : serMembers [(k, v)] ++ '\x7d' :: rest
              = '\"' :: (k ++ '\"' :: ':' :: (ser v ++ '\x7d' :: rest)) := by
            simp [serMembers, serMembersTail]
          rw [harg]
          exact parseMembers_succ_close
            (parseStrBody_roundtrip _ hwm.1.1)
            (ihV v ('\x7d' :: rest) hwm.1.2 hnv)
        | cons m2 ms2 =>
          obtain ⟨k2, v2⟩ := m2
          have harg : serMembers ((k, v) :: (k2, v2) :: ms2) ++ '\x7d' :: rest
              = '\"' :: (k ++ '\"' :: ':' ::
                  (ser v ++ (',' :: (serMembers ((k2, v2) :: ms2) ++ '\x7d' :: rest)))) := by
            simp [serMembers, serMembersTail]
          rw [harg]
          exact parseMembers_succ_comma
            (parseStrBody_roundtrip _ hwm.1.1)
            (ihV v (',' :: (serMembers ((k2, v2) :: ms2) ++ '\x7d' :: rest)) hwm.1.2 hnv)
            (ihM ((k2, v2) :: ms2) rest (by simp) hwm.2 hnms)

theorem from_str_ser {v : Json} (hwf : wfJ v = true) : from_str (ser v) = .ok v := by
  have hfuel : need v ≤ (ser v).length + 1 := by
    have := need_le_ser_length v
    omega
  have h := (parse_roundtrip ((ser v).length + 1)).1 v [] hwf hfuel
  rw [List.append_nil] at h
  unfold from_str
  rw [h]
  rfl

theorem from_str_ser_append {v : Json} (hwf : wfJ v = true) {c : Char} {r : List Char}
    (hws : isWs c = false) : from_str (ser v ++ c :: r) = .error (ser v).length := by
  have hfuel : need v ≤ (ser v ++ c :: r).length + 1 := by
    have h1 := need_le_ser_length v
    have h2 : (ser v).length ≤ (ser v ++ c :: r).length := by simp [List.length_append]
    omega
  have h := (parse_roundtrip ((ser v ++ c :: r).length + 1)).1 v (c :: r) hwf hfuel
  unfold from_str
  simp only [h]
  rw [skipWs_cons_of_not_ws _ hws]
  simp [List.length_append]

/-- One entry of the binstall log: crates-v1.json records objects with a
crate name and the list of installed binaries. -/
structure BinstallEntry where
  name : List Char
  bins : List (List Char)

/-- The JSON object a binstall log entry is serialized as. -/
def entryJson (e : BinstallEntry) : Json :=
  .obj [(nameKey, .str e.name), (binsKey, .arr (e.bins.map Json.str))]

def wfEntry (e : BinstallEntry) : Bool :=
  strOk e.name && e.bins.all strOk

theorem wfElems_map_str (bs : List (List Char)) :
    wfElems (bs.map Json.str) = bs.all strOk := by
  induction bs with
  | nil => rfl
  | cons b bs ih => simp [wfElems, wfJ, ih]

theorem wfJ_entryJson {e : BinstallEntry} (h : wfEntry e = true) :
    wfJ (entryJson e) = true := by
  have hh : strOk e.name = true ∧ e.bins.all strOk = true := by
    simpa [wfEntry] using h
  have h1 : strOk nameKey = true := by decide
  have h2 : strOk binsKey = true := by decide
  simp [entryJson, wfJ, wfMembers, wfElems_map_str, hh.1, hh.2, h1, h2]

theorem allStrings_map (bs : List (List Char)) : allStrings (bs.map Json.str) = some bs := by
  induction bs with
  | nil => rfl
  | cons b bs ih => simp [allStrings, as_str, ih]

theorem extract_entryJson (e : BinstallEntry) :
    extract_entry (entryJson e) = .ok (e.name, e.bins) := by
  show (match allStrings (e.bins.map Json.str) with
    | none => Except.error LogErr.binNotString
    | some bins => Except.ok (e.name, bins)) = Except.ok (e.name, e.bins)
  rw [allStrings_map]

/-- On the serialization of a binstall entry followed by either nothing
or further serialized documents (a non-whitespace continuation),
parse_binstall_cratespec returns exactly that entry and the untouched
continuation: this is the step case of the incremental decoder. -/
theorem parse_binstall_ser_entry (e : BinstallEntry) (hwf : wfEntry e = true)
    (rest : List Char) (hrest : rest = [] ∨ ∃ c t, rest = c :: t ∧ isWs c = false) :
    parse_binstall_cratespec (ser (entryJson e) ++ rest) = .ok (e.name, e.bins, rest) := by
  rcases hrest with hrest | ⟨c, t, hrest, hws⟩
  · subst hrest
    rw [List.append_nil]
    unfold parse_binstall_cratespec
    rw [from_str_ser (wfJ_entryJson hwf)]
    simp only
    rw [extract_entryJson]
  · subst hrest
    unfold parse_binstall_cratespec
    rw [from_str_ser_append (wfJ_entryJson hwf) hws]
    simp only
    rw [List.take_left, List.drop_left, from_str_ser (wfJ_entryJson hwf)]
    simp only
    rw [extract_entryJson]

/-- The whole buffer made of the back-to-back serializations of a list of
binstall entries, with no separators. -/
def serEntries (es : List BinstallEntry) : List Char :=
  (es.map (fun e => ser (entryJson e))).flatten

theorem serEntries_shape (es : List BinstallEntry) :
    serEntries es = [] ∨ ∃ t, serEntries es = '\x7b' :: t := by
  cases es with
  | nil => exact Or.inl rfl
  | cons e es =>
    right
    refine ⟨serMembers [(nameKey, Json.str e.name), (binsKey, Json.arr (e.bins.map Json.str))]
      ++ ['\x7d'] ++ (es.map (fun e => ser (entryJson e))).flatten, ?_⟩
    simp [serEntries, entryJson, ser]

/-- The incremental decoder, run on the concatenation of N serialized
binstall entries with no separators, returns exactly those N entries in
order. -/
theorem decode_serEntries (es : List BinstallEntry) (hwf : ∀ e ∈ es, wfEntry e = true) :
    decode_binstall_log (serEntries es) = .ok (es.map (fun e => (e.name, e.bins))) := by
  induction es with
  | nil =>
    show decode_binstall_log [] = .ok []
    unfold decode_binstall_log
    rfl
  | cons e es ih =>
    have hsplit : serEntries (e :: es) = ser (entryJson e) ++ serEntries es := by
      simp [serEntries]
    have hne : serEntries (e :: es) ≠ [] := by
      rw [hsplit]
      obtain ⟨c, t, hc, -, -, -, -⟩ := ser_head (entryJson e)
      simp [hc]
    have hrest : serEntries es = [] ∨ ∃ c t, serEntries es = c :: t ∧ isWs c = false := by
      rcases serEntries_shape es with h | ⟨t, h⟩
      · exact Or.inl h
      · exact Or.inr ⟨'\x7b', t, h, by decide⟩
    have hstep : parse_binstall_cratespec (serEntries (e :: es))
        = .ok (e.name, e.bins, serEntries es) := by
      rw [hsplit]
      exact parse_binstall_ser_entry e (hwf e (by simp)) _ hrest
    unfold decode_binstall_log
    rw [dif_neg hne]
    rw [hstep]
    have hih := ih (fun e' he' => hwf e' (by simp [he']))
    show (match decode_binstall_log (serEntries es) with
      | Except.error e2 => Except.error e2
      | Except.ok rest => Except.ok ((e.name, e.bins) :: rest))
      = Except.ok (List.map (fun e => (e.name, e.bins)) (e :: es))
    rw [hih]
    rfl

/-- If the full buffer fails to parse and the slice taken at the
reported offset also fails to parse, the decoder fails (the Rust code
propagates the serde error of the slice with the ? operator). -/
theorem parse_binstall_segment_error {s : List Char} {idx e2 : Nat}
    (h1 : from_str s = .error idx) (h2 : from_str (s.take idx) = .error e2) :
    parse_binstall_cratespec s = .error .segmentParse := by
  unfold parse_binstall_cratespec
  simp only [h1, h2]

/-! ## nu_protocol value model and the declarative spec parsers

The nu_protocol Value type is modelled with the constructors the spec
parsers inspect: strings, booleans, integers, lists, records and
closures. A closure carries its block id and the captures list whose
emptiness the flatpak parsers test; Engine::execute_closure in
src/parser/mod.rs runs a closure from its block id alone.
-/

inductive NuValue where
  | str (s : String) : NuValue
  | bool (b : Bool) : NuValue
  | int (n : Int) : NuValue
  | list (vals : List NuValue) : NuValue
  | record (cols : List (String × NuValue)) : NuValue
  | closure (blockId : Nat) (captures : List (Nat × NuValue)) : NuValue
  | nothing : NuValue

/-- nu_protocol::engine::Closure. -/
structure Closure where
  block_id : Nat
  captures : List (Nat × NuValue)

abbrev NuRecord := List (String × NuValue)

def NuValue.as_str : NuValue → Option String
  | .str s => some s
  | _ => none

def NuValue.as_bool : NuValue → Option Bool
  | .bool b => some b
  | _ => none

def NuValue.as_list : NuValue → Option (List NuValue)
  | .list vals => some vals
  | _ => none

def NuValue.as_record : NuValue → Option NuRecord
  | .record cols => some cols
  | _ => none

def NuValue.as_closure : NuValue → Option Closure
  | .closure b c => some ⟨b, c⟩
  | _ => none

/-- nu_protocol::Record::get: look a column up by name. -/
def recordGet (r : NuRecord) (k : String) : Option NuValue :=
  (r.find? (fun c => c.1 = k)).map Prod.snd

/-! ### Cargo spec parsing (src/backends/cargo/mod.rs) -/

structure CargoOpts where
  features : List String
  all_features : Bool
  no_default_features : Bool
  git_remote : Option String
  post_hook : Option Closure

/-- Cargo's value_to_pkgspec. Field for field as in the source: package
is required and must be a string; all_features defaults to false;
no_default_features is only consulted when all_features is false;
features only when both flags are false; git_remote is optional; the
post_hook closure is kept as parsed, with no inspection of its captures
list. -/
def cargo_value_to_pkgspec (value : NuValue) : Except String (String × CargoOpts) :=
  match value.as_record with
  | none => .error "Failed to parse value"
  | some record =>
    match recordGet record "package" with
    | none => .error "No package mentioned"
    | some pv =>
      match pv.as_str with
      | none => .error "Package name in record is not a string"
      | some package =>
        let all_featuresR : Except String Bool :=
          match recordGet record "all_features" with
          | some av =>
            match av.as_bool with
            | none => .error "value of all_features is not a boolean"
            | some b => .ok b
          | none => .ok false
        match all_featuresR with
        | .error e => .error e
        | .ok all_features =>
          let ndfR : Except String Bool :=
            match (recordGet record "no_default_features").filter
                (fun _ => !all_features) with
            | some nv =>
              match nv.as_bool with
              | none => .error "value of no_default_features is not a boolean"
              | some b => .ok b
            | none => .ok false
          match ndfR with
          | .error e => .error e
          | .ok no_default_features =>
            let featuresR : Except String (List String) :=
              match (recordGet record "features").filter
                  (fun _ => !all_features && !no_default_features) with
              | some fv =>
                match fv.as_list with
                | none => .error "value of features is not a list"
                | some items =>
                  match items.mapM NuValue.as_str with
                  | none => .error "element in features not a string"
                  | some feats => .ok feats
              | none => .ok []
            match featuresR with
            | .error e => .error e
            | .ok features =>
              let gitR : Except String (Option String) :=
                match recordGet record "git_remote" with
                | some gv =>
                  match gv.as_str with
                  | none => .error "Failed to parse git remote"
                  | some g => .ok (some g)
                | none => .ok none
              match gitR with
              | .error e => .error e
              | .ok git_remote =>
                match recordGet record "post_hook" with
                | some cv =>
                  match cv.as_closure with
                  | none => .error "value of post_hook is not a closure"
                  | some c =>
                    .ok (package,
                      ⟨features, all_features, no_default_features, git_remote, some c⟩)
                | none =>
                  .ok (package,
                    ⟨features, all_features, no_default_features, git_remote, none⟩)

/-- collect::<Result<_>> over an iterator of parses: stop at the first
error, otherwise return all results in order. -/
def collectExcept {a : Type} : List NuValue → (NuValue → Except String a) → Except String (List a)
  | [], _ => .ok []
  | v :: vs, f =>
    match f v with
    | .error e => .error e
    | .ok x =>
      match collectExcept vs f with
      | .error e => .error e
      | .ok xs => .ok (x :: xs)

/-- The Cargo backend state built by Backend::new. The installopt choice
normally comes from the cargo_use_binstall config key (the config
constants live outside src/); it is passed here as a boolean. -/
structure Cargo where
  packages : List (String × CargoOpts)
  installopt : String

/-- Cargo::new, packages part: a missing packages key or a non-list
value is a hard error, and the per-entry parser runs under
collect::<Result<_>>, so one malformed entry is a hard error for the
whole backend. -/
def cargo_new (value : NuRecord) (binstall : Bool) : Except String Cargo :=
  match recordGet value "packages" with
  | none => .error "Failed to get packages for Cargo"
  | some pl =>
    match pl.as_list with
    | none => .error "Packages not a list for Cargo"
    | some items =>
      match collectExcept items cargo_value_to_pkgspec with
      | .error e => .error e
      | .ok packages => .ok ⟨packages, if binstall then "binstall" else "install"⟩

/-! ### Arch spec parsing (src/backends/arch/mod.rs) -/

/-- Arch's value_to_pkgspec: package name plus an optional post_hook
closure, kept as parsed with no inspection of its captures list. -/
def arch_value_to_pkgspec (value : NuValue) : Except String (String × Option Closure) :=
  match value.as_record with
  | none => .error "The package-spec is not a record"
  | some record =>
    match recordGet record "package" with
    | none => .error "No package mentioned"
    | some pv =>
      match pv.as_str with
      | none => .error "The package was not a string"
      | some package =>
        match recordGet record "post_hook" with
        | some hv =>
          match hv.as_closure with
          | none => .error "Post hook is not a closure"
          | some c => .ok (package, some c)
        | none => .ok (package, none)

def arch_new_packages (value : NuRecord) : Except String (List (String × Option Closure)) :=
  match recordGet value "packages" with
  | none => .error "Failed to get packages for Arch"
  | some pl =>
    match pl.as_list with
    | none => .error "The package list in Arch is not a list"
    | some items => collectExcept items arch_value_to_pkgspec

/-! ### Flatpak spec parsing (src/backends/flatpak/mod.rs) -/

structure FlatpakOpts where
  remote : Option String
  systemwide : Bool
  post_hook : Option Closure

structure PinOpts where
  branch : Option String
  arch : Option String
  systemwide : Bool
  post_hook : Option Closure

/-- Flatpak's value_to_pkgspec: unlike cargo and arch, a post_hook
closure with a non-empty captures list is dropped (logged and replaced
by None). -/
def flatpak_value_to_pkgspec (value : NuValue) (default_systemwide : Bool) :
    Except String (String × FlatpakOpts) :=
  match value.as_record with
  | none => .error "pkgspec was not a record"
  | some record =>
    match recordGet record "package" with
    | none => .error "record package key is missing"
    | some pv =>
      match pv.as_str with
      | none => .error "record package key is not a string"
      | some name =>
        let remoteR : Except String (Option String) :=
          match recordGet record "remote" with
          | some rv =>
            match rv.as_str with
            | none => .error "record remote key is not a string"
            | some r => .ok (some r)
          | none => .ok none
        match remoteR with
        | .error e => .error e
        | .ok remote =>
          let swR : Except String Bool :=
            match recordGet record "systemwide" with
            | some sv =>
              match sv.as_bool with
              | none => .error "systemwide not a boolean"
              | some b => .ok b
            | none => .ok default_systemwide
          match swR with
          | .error e => .error e
          | .ok systemwide =>
            match recordGet record "post_hook" with
            | some hv =>
              match hv.as_closure with
              | none => .error "Post hook is not a closure"
              | some c =>
                if ¬ c.captures.isEmpty then
                  .ok (name, ⟨remote, systemwide, none⟩)
                else
                  .ok (name, ⟨remote, systemwide, some c⟩)
            | none => .ok (name, ⟨remote, systemwide, none⟩)

/-- Flatpak's value_to_pinspec: id, optional branch and arch, systemwide
default, and a post_hook closure that is dropped when it captures. -/
def flatpak_value_to_pinspec (value : NuValue) (default_systemwide : Bool) :
    Except String (String × PinOpts) :=
  match value.as_record with
  | none => .error "pinspec is not a record"
  | some record =>
    match recordGet record "package" with
    | none => .error "record package key missing"
    | some pv =>
      match pv.as_str with
      | none => .error "record package key is not a string"
      | some name =>
        let branchR : Except String (Option String) :=
          match recordGet record "branch" with
          | some bv =>
            match bv.as_str with
            | none => .error "branch is not a string"
            | some b => .ok (some b)
          | none => .ok none
        match branchR with
        | .error e => .error e
        | .ok branch =>
          let archR : Except String (Option String) :=
            match recordGet record "arch" with
            | some av =>
              match av.as_str with
              | none => .error "arch is not a string"
              | some a => .ok (some a)
            | none => .ok none
          match archR with
          | .error e => .error e
          | .ok arch =>
            let swR : Except String Bool :=
              match recordGet record "systemwide" with
              | some sv =>
                match sv.as_bool with
                | none => .error "systemwide not a boolean"
                | some b => .ok b
              | none => .ok default_systemwide
            match swR with
            | .error e => .error e
            | .ok systemwide =>
              match recordGet record "post_hook" with
              | some hv =>
                match hv.as_closure with
                | none => .error "Closure is not a closure"
                | some c =>
                  if ¬ c.captures.isEmpty then
                    .ok (name, ⟨branch, arch, systemwide, none⟩)
                  else
                    .ok (name, ⟨branch, arch, systemwide, some c⟩)
              | none => .ok (name, ⟨branch, arch, systemwide, none⟩)

/-- values_to_pins: each entry is parsed with value_to_pinspec inside
flat_map, so a malformed entry is skipped and the rest of the batch is
kept; the survivors are partitioned into user and system pins. -/
def flatpak_values_to_pins (values : List NuValue) (default_systemwide : Bool) :
    List (String × PinOpts) × List (String × PinOpts) :=
  (values.filterMap (fun v => (flatpak_value_to_pinspec v default_systemwide).toOption)).partition
    (fun p => !p.2.systemwide)

/-- extract_remote: every failure is logged and yields None, so the
entry is skipped. -/
def extract_remote (remote : NuValue) : Option (String × String) :=
  match remote.as_record with
  | none => none
  | some record =>
    match recordGet record "package" with
    | none => none
    | some nv =>
      match nv.as_str with
      | none => none
      | some name =>
        match recordGet record "url" with
        | none => none
        | some uv =>
          match uv.as_str with
          | none => none
          | some url => some (name, url)

def flatpak_values_to_remotes (remotes : List NuValue) : List (String × String) :=
  remotes.filterMap extract_remote

/-! ## Command and hook traces

Each backend operation is modelled as a pure function that returns the
list of events it performs, in order: external commands started by
run_command / dry_run_command and hook closures handed to
Engine::execute_closure / Engine::dry_run_closure. Command success, the
confirmation prompt answer and the probed installed state are
parameters; probe commands themselves (list / query invocations) are
not traced, only reconciliation commands are.
-/

structure SyncCommand where
  dry_run : Bool
  no_confirm : Bool

structure CleanCommand where
  dry_run : Bool
  no_confirm : Bool

inductive Event where
  | runCmd (args : List String) : Event
  | dryRunCmd (args : List String) : Event
  | execHook (blockId : Nat) : Event
  | dryRunHook (blockId : Nat) : Event
  deriving DecidableEq

/-- try_for_each over collected post hooks: execute_closure runs the
block of each closure (a failure aborts the remaining hooks); in
dry-run mode the closure source is printed instead. -/
def run_hooks : List Closure → Bool → (Nat → Bool) → List Event × Except String Unit
  | [], _, _ => ([], .ok ())
  | h :: hs, dryRun, hookOk =>
    if dryRun then
      let (evs, r) := run_hooks hs dryRun hookOk
      (.dryRunHook h.block_id :: evs, r)
    else if hookOk h.block_id then
      let (evs, r) := run_hooks hs dryRun hookOk
      (.execHook h.block_id :: evs, r)
    else ([.execHook h.block_id], .error "Failed to execute closure")

/-! ### Cargo install and remove (src/backends/cargo/mod.rs) -/

/-- The argument vector install_package builds. -/
def cargo_install_args (name : String) (spec : CargoOpts) (installer : String) : List String :=
  ["cargo", installer]
    ++ (match spec.git_remote with
        | some url => ["--git", url]
        | none => [])
    ++ (if spec.all_features then ["--all-features"] else [])
    ++ (if spec.no_default_features then ["--no-default-features"] else [])
    ++ (if spec.features.isEmpty then [] else "--features" :: spec.features)
    ++ (if installer = "binstall" then ["--no-confirm"] else [])
    ++ [name]

def cargo_run_installs :
    List (String × CargoOpts) → String → SyncCommand → (List String → Bool) →
      List Event × Except String Unit
  | [], _, _, _ => ([], .ok ())
  | (name, spec) :: rest, installopt, opts, cmdOk =>
    let args := cargo_install_args name spec installopt
    if opts.dry_run then
      let (evs, r) := cargo_run_installs rest installopt opts cmdOk
      (.dryRunCmd args :: evs, r)
    else if cmdOk args then
      let (evs, r) := cargo_run_installs rest installopt opts cmdOk
      (.runCmd args :: evs, r)
    else ([.runCmd args], .error "Failed to install")

/-- Cargo::install. The installed set is the result of
get_installed_packages; packages missing from it are installed one by
one, and only when every install command has succeeded are the post
hooks of the missing packages executed, in discovery order. When
nothing is missing, or confirmation is declined, no command runs. -/
def cargo_install (c : Cargo) (installed : List String) (opts : SyncCommand)
    (promptAnswer : Bool) (cmdOk : List String → Bool) (hookOk : Nat → Bool) :
    List Event × Except String Unit :=
  let missing := c.packages.filter (fun p => !installed.contains p.1)
  if missing.isEmpty then ([], .ok ())
  else if !opts.no_confirm && !promptAnswer then ([], .ok ())
  else
    match cargo_run_installs missing c.installopt opts cmdOk with
    | (evs, .error e) => (evs, .error e)
    | (evs, .ok _) =>
      let hooks := missing.filterMap (fun p => p.2.post_hook)
      let (hevs, r) := run_hooks hooks opts.dry_run hookOk
      (evs ++ hevs, r)

def cargo_run_removes :
    List String → CleanCommand → (List String → Bool) → List Event × Except String Unit
  | [], _, _ => ([], .ok ())
  | p :: rest, opts, cmdOk =>
    let args := ["cargo", "uninstall", p]
    if opts.dry_run then
      let (evs, r) := cargo_run_removes rest opts cmdOk
      (.dryRunCmd args :: evs, r)
    else if cmdOk args then
      let (evs, r) := cargo_run_removes rest opts cmdOk
      (.runCmd args :: evs, r)
    else ([.runCmd args], .error "Failed to uninstall")

/-- Cargo::remove: installed packages not configured are uninstalled one
by one; with no extras, or a declined confirmation, no command runs. -/
def cargo_remove (c : Cargo) (installed : List String) (opts : CleanCommand)
    (promptAnswer : Bool) (cmdOk : List String → Bool) : List Event × Except String Unit :=
  let extra := installed.filter (fun p => !(c.packages.map Prod.fst).contains p)
  if extra.isEmpty then ([], .ok ())
  else if !opts.no_confirm && !promptAnswer then ([], .ok ())
  else cargo_run_removes extra opts cmdOk

/-! ### Arch install (src/backends/arch/mod.rs) -/

/-- Arch::install. Probe results (explicitly installed packages,
dependency-reason packages, the group listing and the member expansion
per group) are parameters. Configured names that name a group are
expanded; of the resulting set, the packages not explicitly installed
are missing; those of the missing that are installed as dependencies
are moved to a separate as-explicit operation instead of the install
command. Both the sync command and the database command are started
before either result is checked, exactly as in the source; hooks run
only after both commands succeeded. -/
def arch_install (packages : List (String × Option Closure)) (pm : String)
    (explicitInstalled deps groups : List String) (groupMembers : String → List String)
    (opts : SyncCommand) (cmdOk : List String → Bool) (hookOk : Nat → Bool) :
    List Event × Except String Unit :=
  let names := packages.map Prod.fst
  let configured_groups := groups.filter (fun g => names.contains g)
  let rest_names := names.filter (fun n => !groups.contains n)
  let group_closures := configured_groups.filterMap
    (fun g => (packages.find? (fun p => p.1 = g)).bind Prod.snd)
  let group_pkgs := (configured_groups.map groupMembers).flatten
  let missing := (rest_names ++ group_pkgs).filter (fun p => !explicitInstalled.contains p)
  let missing_closures := missing.filterMap
    (fun p => (packages.find? (fun q => q.1 = p)).bind Prod.snd)
  let closures := group_closures ++ missing_closures
  if missing.isEmpty then ([], .ok ())
  else
    let reason_change := missing.filter (fun p => deps.contains p)
    let missing2 := missing.filter (fun p => !deps.contains p)
    let install_args :=
      [pm, "--sync"] ++ (if opts.no_confirm then ["--noconfirm"] else []) ++ missing2
    let reason_args := [pm, "--database", "--asexplicit"] ++ reason_change
    if opts.dry_run then
      let (hevs, r) := run_hooks closures true hookOk
      ([.dryRunCmd install_args, .dryRunCmd reason_args] ++ hevs, r)
    else
      let evs := [Event.runCmd install_args, Event.runCmd reason_args]
      if cmdOk install_args then
        if cmdOk reason_args then
          let (hevs, r) := run_hooks closures false hookOk
          (evs ++ hevs, r)
        else (evs, .error "Failed to set dependencies as explicits")
      else (evs, .error "Failed to install packages")

/-! ### Flatpak pins and removal (src/backends/flatpak/mod.rs) -/

def splitChar (sep : Char) : List Char → List (List Char)
  | [] => [[]]
  | c :: cs =>
    match splitChar sep cs with
    | [] => [[c]]
    | g :: gs => if c = sep then [] :: g :: gs else (c :: g) :: gs

def strTrim (s : String) : String :=
  String.mk (((s.data.dropWhile isWs).reverse.dropWhile isWs).reverse)

/-- parse_runtime_format: split an installed pin string on slashes,
strip an optional leading runtime segment, and read the following
segments as arch and branch (empty segments count as absent). The
source unwraps the segment after a lone runtime prefix and would panic
if it is absent; that case is modelled as none. -/
def parse_runtime_format (runtime_string : String) (systemwide : Bool) :
    Option (String × PinOpts) :=
  match splitChar '/' runtime_string.data with
  | [] => none
  | first :: rest =>
    let runtimeSegs : Option (List Char × List (List Char)) :=
      if first = "runtime".data then
        match rest with
        | [] => none
        | r :: rest2 => some (r, rest2)
      else some (first, rest)
    match runtimeSegs with
    | none => none
    | some (runtime, segs) =>
      let arch := (segs[0]?.filter (fun s => !s.isEmpty)).map String.mk
      let branch := (segs[1]?.filter (fun s => !s.isEmpty)).map String.mk
      some (String.mk runtime, ⟨branch, arch, systemwide, none⟩)

def flatpak_run_pins :
    List (String × String × String) → String → (List String → Bool) →
      List Event × Except String Unit
  | [], _, _ => ([], .ok ())
  | (n, b, a) :: rest, flag, cmdOk =>
    let args := ["flatpak", "pin", flag, n ++ b ++ a]
    if cmdOk args then
      let (evs, r) := flatpak_run_pins rest flag cmdOk
      (.runCmd args :: evs, r)
    else ([.runCmd args], .error "Failed to pin packages")

/-- Flatpak::install_pins. Installed pins are parsed from the flatpak
pin output, kept only when their runtime also appears among installed
packages, and a configured pin counts as present exactly when its id
equals the parsed id of such a pin (the configured branch and arch
fields play no role in the match). For the missing pins a pin command
runs per pin (through run_command even under dry-run, as in the
source), then one install command for all of them; hooks of missing
pins are collected for the caller. -/
def flatpak_installed_pin_ids (installed_packages installed_pins_raw : List String) :
    List String :=
  (((installed_pins_raw.map strTrim).filterMap
      (fun r => parse_runtime_format r false)).filter
      (fun p => installed_packages.contains p.1)).map Prod.fst

def flatpak_install_pins (configured_pins : List (String × PinOpts))
    (installed_packages : List String) (installed_pins_raw : List String)
    (systemwide : Bool) (opts : SyncCommand) (cmdOk : List String → Bool) :
    List Event × List Closure × Except String Unit :=
  let flag := if systemwide then "--system" else "--user"
  let missing := configured_pins.filter
      (fun cp => !(flatpak_installed_pin_ids installed_packages installed_pins_raw).contains cp.1)
  let closures := missing.filterMap (fun cp => cp.2.post_hook)
  let missing_specs := missing.map (fun cp =>
      (cp.1, (cp.2.branch.map (fun b => "/" ++ b)).getD "",
       (cp.2.arch.map (fun a => "/" ++ a)).getD ""))
  if missing_specs.isEmpty then ([], closures, .ok ())
  else
    match flatpak_run_pins missing_specs flag cmdOk with
    | (evs, .error e) => (evs, closures, .error e)
    | (evs, .ok _) =>
      let iargs := ["flatpak", "install", flag] ++ missing_specs.map (fun s => s.1)
      if opts.dry_run then (evs ++ [.dryRunCmd iargs], closures, .ok ())
      else if cmdOk iargs then (evs ++ [.runCmd iargs], closures, .ok ())
      else (evs ++ [.runCmd iargs], closures, .error "Failed to install packages")

/-- Flatpak::remove_packages: the remove command is built from the
installed applications that are not configured and started
unconditionally, with no emptiness check on that list. -/
def flatpak_remove_packages (configured : List (String × FlatpakOpts))
    (installed : List String) (systemwide : Bool) (opts : CleanCommand)
    (cmdOk : List String → Bool) : List Event × Except String Unit :=
  let flag := if systemwide then "--system" else "--user"
  let extra := installed.filter (fun p => !(configured.map Prod.fst).contains p)
  let args := ["flatpak", "remove", flag, "--delete-data"] ++ extra
  if opts.dry_run then ([.dryRunCmd args], .ok ())
  else if cmdOk args then ([.runCmd args], .ok ())
  else ([.runCmd args], .error "Failed to remove extra packages")

/-! ### Rustup toolchains and components (src/backends/rustup/mod.rs) -/

structure ToolchainSpec where
  targets : List String
  components : List String

/-- str::starts_with on the character lists of two strings. -/
def strStartsWith (s p : String) : Bool := p.data.isPrefixOf s.data

/-- One line of rustup toolchain list output: everything before the
first space (the suffix such as a default marker is dropped); a line
without a space is kept whole. -/
def splitOnceChar (sep : Char) : List Char → Option (List Char × List Char)
  | [] => none
  | c :: cs =>
    if c = sep then some ([], cs)
    else (splitOnceChar sep cs).map (fun p => (c :: p.1, p.2))

def toolchain_of_line (line : String) : String :=
  match splitOnceChar ' ' line.data with
  | some p => String.mk p.1
  | none => line

/-- The command install_missing_toolchain builds: note that the source
never passes the toolchain name itself. -/
def rustup_install_toolchain_args (spec : ToolchainSpec) : List String :=
  ["rustup", "toolchain", "install"]
    ++ (if spec.components.isEmpty then [] else "--component" :: spec.components)
    ++ (if spec.targets.isEmpty then [] else "--target" :: spec.targets)

def rustup_run_installs :
    List (String × ToolchainSpec) → (List String → Bool) → List Event × Except String Unit
  | [], _ => ([], .ok ())
  | (_, spec) :: rest, cmdOk =>
    let args := rustup_install_toolchain_args spec
    if cmdOk args then
      let (evs, r) := rustup_run_installs rest cmdOk
      (.runCmd args :: evs, r)
    else ([.runCmd args], .error "Failed to install toolchain")

/-- Rustup::install_toolchains: a configured toolchain is missing
exactly when no installed toolchain string starts with it. -/
def rustup_install_toolchains (toolchains : List (String × ToolchainSpec))
    (installed : List String) (cmdOk : List String → Bool) : List Event × Except String Unit :=
  let missing := toolchains.filter (fun tc => !installed.any (fun i => strStartsWith i tc.1))
  rustup_run_installs missing cmdOk

def DEFAULT_COMPONENTS : List String :=
  ["cargo", "clippy", "rust-docs", "rust-std", "rust-src", "rustc", "rustfmt"]

/-- The extra components remove_extra_components computes: installed
components none of whose prefixes is a configured or default
component. -/
def rustup_extra_components (configured installed : List String) : List String :=
  installed.filter (fun comp =>
    !(configured ++ DEFAULT_COMPONENTS).any (fun p => strStartsWith comp p))

def rustup_remove_extra_components (toolchain : String) (configured installed : List String)
    (opts : CleanCommand) (cmdOk : List String → Bool) : List Event × Except String Unit :=
  let extra := rustup_extra_components configured installed
  if extra.isEmpty then ([], .ok ())
  else
    let args := ["rustup", "component", "remove", "--toolchain", toolchain] ++ extra
    if opts.dry_run then ([.dryRunCmd args], .ok ())
    else if cmdOk args then ([.runCmd args], .ok ())
    else ([.runCmd args], .error "Failed to remove components")

/-! ### The backend loop of src/main.rs -/

/-- The run over all configured backends: each backend, when reached,
contributes its events and its result. The iterator of backend results
is collected into Result of unit, which stops at the first error:
backends after a failing one are never reached, and only the first
error is returned. -/
def main_run : List (List Event × Except String Unit) → List Event × Except String Unit
  | [] => ([], .ok ())
  | (evs, .ok _) :: rest =>
    let (evs2, r) := main_run rest
    (evs ++ evs2, r)
  | (evs, .error e) :: _ => (evs, .error e)

/-! ### Cargo installed-state probe (src/backends/cargo/mod.rs) -/

def installsKey : List Char := "installs".data

def jsonGet (v : Json) (k : List Char) : Option Json :=
  match v with
  | .obj ms => objGet ms k
  | _ => none

/-- get_installed_packages_source: parse .crates2.json, take the keys of
its installs object and keep the part of each key before the first
space (keys without a space are dropped by the filter_map). -/
def get_installed_packages_source (cratespec : List Char) :
    Except String (List (List Char)) :=
  match from_str cratespec with
  | .error _ => .error "error occured in parsing json data"
  | .ok v =>
    match jsonGet v installsKey with
    | none => .error "Malformed cratespec contents, installs not found"
    | some iv =>
      match as_object iv with
      | none => .error "Malformed cratespec contents, installs not an object"
      | some ms =>
        .ok ((ms.map Prod.fst).filterMap (fun k => (splitOnceChar ' ' k).map Prod.fst))

/-- get_installed_packages_from_binstall_spec: the decoded entries are
held in a map keyed by name (a later entry overwrites an earlier one),
and a package counts as installed only when all of its recorded
binaries exist on disk. -/
def get_installed_packages_from_binstall_spec (binExists : List Char → Bool)
    (pkgspec : List (List Char × List (List Char))) : List (List Char) :=
  let deduped := pkgspec.foldl (fun acc e => acc.filter (fun x => x.1 ≠ e.1) ++ [e]) []
  (deduped.filter (fun p => p.2.all binExists)).map Prod.fst

/-- get_installed_packages_binary: run the incremental decoder over the
binstall log, then the existence filter. -/
def get_installed_packages_binary (binExists : List Char → Bool) (cratespec : List Char) :
    Except String (List (List Char)) :=
  match decode_binstall_log cratespec with
  | .error _ => .error "Malformed binstall log"
  | .ok entries => .ok (get_installed_packages_from_binstall_spec binExists entries)

/-- Cargo::get_installed_packages. File contents are parameters: none
models a read error of the respective file. An unreadable
.crates2.json yields the empty set; in binstall mode an unreadable
binstall log also yields the empty set, discarding the packages already
parsed from .crates2.json. -/
def cargo_get_installed_packages (c : Cargo) (crateFile binstallFile : Option (List Char))
    (binExists : List Char → Bool) : Except String (List (List Char)) :=
  if c.installopt ≠ "binstall" ∧ c.installopt ≠ "install" then
    .error "Failed to retrieve packages, unsupported installer"
  else
    match crateFile with
    | none => .ok []
    | some cratespec =>
      match get_installed_packages_source cratespec with
      | .error e => .error e
      | .ok finalPackages =>
        if c.installopt = "binstall" then
          match binstallFile with
          | none => .ok []
          | some bs =>
            match get_installed_packages_binary binExists bs with
            | .error e => .error e
            | .ok binPackages => .ok (finalPackages ++ binPackages)
        else .ok finalPackages

/-! ## Claim theorems -/

/-- C1: reconciliation computes the set difference of configured against
installed state. With configured packages A and B and installed explicit
packages B and C (no groups), the install step invokes the install
command for exactly A, the remove step invokes the remove command for
exactly C, and an attached hook of A is executed exactly once, strictly
after A's install command, and never when that command fails. Shown for
the cargo backend (install and remove) and the arch backend (install,
where the source additionally always issues the as-explicit reason
command alongside the sync command). -/
theorem c1_reconciliation_set_difference
    (A B C pm : String) (optsA optsB : CargoOpts) (hk : Closure) (installopt : String)
    (promptAnswer : Bool) (cmdOk : List String → Bool) (hookOk : Nat → Bool)
    (hAB : A ≠ B) (hAC : A ≠ C) (hCB : C ≠ B) (hCA : C ≠ A)
    (hhook : optsA.post_hook = some hk) :
    (cmdOk (cargo_install_args A optsA installopt) = true → hookOk hk.block_id = true →
      cargo_install ⟨[(A, optsA), (B, optsB)], installopt⟩ [B, C] ⟨false, true⟩
          promptAnswer cmdOk hookOk
        = ([.runCmd (cargo_install_args A optsA installopt), .execHook hk.block_id], .ok ())) ∧
    (cmdOk (cargo_install_args A optsA installopt) = false →
      cargo_install ⟨[(A, optsA), (B, optsB)], installopt⟩ [B, C] ⟨false, true⟩
          promptAnswer cmdOk hookOk
        = ([.runCmd (cargo_install_args A optsA installopt)], .error "Failed to install")) ∧
    (cmdOk ["cargo", "uninstall", C] = true →
      cargo_remove ⟨[(A, optsA), (B, optsB)], installopt⟩ [B, C] ⟨false, true⟩
          promptAnswer cmdOk
        = ([.runCmd ["cargo", "uninstall", C]], .ok ())) ∧
    (cmdOk [pm, "--sync", "--noconfirm", A] = true →
      cmdOk [pm, "--database", "--asexplicit"] = true → hookOk hk.block_id = true →
      arch_install [(A, some hk), (B, none)] pm [B, C] [] [] (fun _ => []) ⟨false, true⟩
          cmdOk hookOk
        = ([.runCmd [pm, "--sync", "--noconfirm", A],
            .runCmd [pm, "--database", "--asexplicit"], .execHook hk.block_id], .ok ())) := by
  refine ⟨?_, ?_, ?_, ?_⟩
  · intro hcmd hho
    simp [cargo_install, cargo_run_installs, run_hooks, hAB, hAC, hhook, hcmd, hho]
  · intro hcmd
    simp [cargo_install, cargo_run_installs, hAB, hAC, hcmd]
  · intro hcmd
    simp [cargo_remove, cargo_run_removes, hAB, hAC, hCB, hCA, hcmd]
  · intro hc1 hc2 hho
    simp [arch_install, run_hooks, hAB, hAC, hhook, hc1, hc2, hho]

theorem c1_reconciliation_set_difference_witness :
    (cargo_install ⟨[("ripgrep", ⟨[], false, false, none, some ⟨7, []⟩⟩),
          ("serde", ⟨[], false, false, none, none⟩)], "install"⟩
        ["serde", "tokio"] ⟨false, true⟩ true (fun _ => true) (fun _ => true)
      = ([.runCmd (cargo_install_args "ripgrep" ⟨[], false, false, none, some ⟨7, []⟩⟩ "install"),
          .execHook 7], .ok ())) ∧
    (cargo_install ⟨[("ripgrep", ⟨[], false, false, none, some ⟨7, []⟩⟩),
          ("serde", ⟨[], false, false, none, none⟩)], "install"⟩
        ["serde", "tokio"] ⟨false, true⟩ true (fun _ => false) (fun _ => true)
      = ([.runCmd (cargo_install_args "ripgrep" ⟨[], false, false, none, some ⟨7, []⟩⟩ "install")],
          .error "Failed to install")) ∧
    (cargo_remove ⟨[("ripgrep", ⟨[], false, false, none, some ⟨7, []⟩⟩),
          ("serde", ⟨[], false, false, none, none⟩)], "install"⟩
        ["serde", "tokio"] ⟨false, true⟩ true (fun _ => true)
      = ([.runCmd ["cargo", "uninstall", "tokio"]], .ok ())) ∧
    (arch_install [("ripgrep", some ⟨7, []⟩), ("serde", none)] "paru" ["serde", "tokio"] [] []
        (fun _ => []) ⟨false, true⟩ (fun _ => true) (fun _ => true)
      = ([.runCmd ["paru", "--sync", "--noconfirm", "ripgrep"],
          .runCmd ["paru", "--database", "--asexplicit"], .execHook 7], .ok ())) := by
  have hT := c1_reconciliation_set_difference "ripgrep" "serde" "tokio" "paru"
    ⟨[], false, false, none, some ⟨7, []⟩⟩ ⟨[], false, false, none, none⟩ ⟨7, []⟩ "install"
    true (fun _ => true) (fun _ => true)
    (by decide) (by decide) (by decide) (by decide) rfl
  have hF := c1_reconciliation_set_difference "ripgrep" "serde" "tokio" "paru"
    ⟨[], false, false, none, some ⟨7, []⟩⟩ ⟨[], false, false, none, none⟩ ⟨7, []⟩ "install"
    true (fun _ => false) (fun _ => true)
    (by decide) (by decide) (by decide) (by decide) rfl
  exact ⟨hT.1 rfl rfl, hF.2.1 rfl, hT.2.2.1 rfl, hT.2.2.2 rfl rfl rfl⟩

/-- C2: refuted on the code. A declarative entry whose post_hook closure
captures external state (non-empty captures list) is parsed by cargo's
and arch's value_to_pkgspec with the hook KEPT (hook = some), while
flatpak's package and pin parsers drop it (hook = none). Cargo's own
unit test value_to_pkgspec_bound_closure asserts the hook must be
dropped, so the cargo and arch parsers contradict the repository's own
test suite: the claim is right and the code is wrong. -/
theorem c2_capturing_hook_kept_by_cargo_and_arch :
    (cargo_value_to_pkgspec
        (.record [("package", .str "foo"), ("post_hook", .closure 0 [(1, .bool true)])])
      = .ok ("foo", ⟨[], false, false, none, some ⟨0, [(1, .bool true)]⟩⟩)) ∧
    (arch_value_to_pkgspec
        (.record [("package", .str "foo"), ("post_hook", .closure 0 [(1, .bool true)])])
      = .ok ("foo", some ⟨0, [(1, .bool true)]⟩)) ∧
    (flatpak_value_to_pkgspec
        (.record [("package", .str "foo"), ("post_hook", .closure 0 [(1, .bool true)])]) false
      = .ok ("foo", ⟨none, false, none⟩)) ∧
    (flatpak_value_to_pinspec
        (.record [("package", .str "foo"), ("post_hook", .closure 0 [(1, .bool true)])]) false
      = .ok ("foo", ⟨none, none, false, none⟩)) :=
  ⟨rfl, rfl, rfl, rfl⟩

/-- C3: the incremental multi-document JSON decoder, run on a buffer that
concatenates N serialized binstall log objects back-to-back with no
separators, returns exactly N decoded entries, each equal to its source
object (whose name and bins fields are what the decoder extracts and
keeps), for every N ≥ 0. It works by repeatedly parsing the remainder
and, on a trailing-data error, slicing at the reported offset, parsing
the slice as one value and continuing from the offset onward
(parse_binstall_ser_entry). -/
theorem c3_incremental_decoder_exact (es : List BinstallEntry)
    (hwf : ∀ e ∈ es, wfEntry e = true) :
    decode_binstall_log (serEntries es) = .ok (es.map (fun e => (e.name, e.bins))) ∧
    (es.map (fun e => (e.name, e.bins))).length = es.length := by
  exact ⟨decode_serEntries es hwf, by simp⟩

theorem c3_incremental_decoder_exact_witness :
    (decode_binstall_log
        (serEntries [⟨"ripgrep".data, ["rg".data]⟩, ⟨"bat".data, ["bat".data]⟩])
      = .ok [("ripgrep".data, ["rg".data]), ("bat".data, ["bat".data])] ∧
      ([⟨"ripgrep".data, ["rg".data]⟩, ⟨"bat".data, ["bat".data]⟩].map
        (fun e : BinstallEntry => (e.name, e.bins))).length = 2) ∧
    decode_binstall_log (serEntries []) = .ok [] :=
  ⟨c3_incremental_decoder_exact
      [⟨"ripgrep".data, ["rg".data]⟩, ⟨"bat".data, ["bat".data]⟩] (by decide),
   (c3_incremental_decoder_exact [] (by decide)).1⟩

/-- C4: progress and failure of the incremental decoder. A successful
call of parse_binstall_cratespec on a non-empty buffer strictly
consumes at least one character, so the read loop of
get_installed_packages_binary terminates (decode_binstall_log is
defined by well-founded recursion on exactly this measure); and when
the whole buffer fails to parse and the slice taken at the reported
offset also fails to parse, the decoder fails with an error instead of
looping or skipping. -/
theorem c4_decoder_progress_and_slice_failure :
    (∀ (s name : List Char) (bins : List (List Char)) (rem : List Char), s ≠ [] →
      parse_binstall_cratespec s = .ok (name, bins, rem) → rem.length < s.length) ∧
    (∀ (s : List Char) (idx e2 : Nat), from_str s = .error idx →
      from_str (s.take idx) = .error e2 →
      parse_binstall_cratespec s = .error .segmentParse) :=
  ⟨fun _ _ _ _ hs h => parse_binstall_consumes hs h,
   fun _ _ _ h1 h2 => parse_binstall_segment_error h1 h2⟩

theorem c4_decoder_progress_and_slice_failure_witness :
    (['\x7b'] : List Char).length < (ser (entryJson ⟨"a".data, []⟩) ++ ['\x7b']).length ∧
    parse_binstall_cratespec ['x'] = .error .segmentParse :=
  ⟨c4_decoder_progress_and_slice_failure.1 (ser (entryJson ⟨"a".data, []⟩) ++ ['\x7b'])
      "a".data [] ['\x7b'] (by decide) rfl,
   c4_decoder_progress_and_slice_failure.2 ['x'] 0 0 rfl rfl⟩

/-- C5, counterexample: the claim states that an error in one backend
does not prevent the remaining backends from being attempted and that
all backend errors are aggregated. In the model of main's backend loop
(collect into Result, which stops at the first error), a run whose
first backend fails performs none of the second backend's work: its
events are absent from the trace, refuting the claim at this input
(under the claim, the trace would be the concatenation of every
backend's events). -/
theorem c5_error_stops_run_counterexample :
    main_run [([], .error "backend failure"), ([.runCmd ["flatpak", "list"]], .ok ())]
      = ([], .error "backend failure") ∧
    (main_run [([], .error "backend failure"), ([.runCmd ["flatpak", "list"]], .ok ())]).1
      ≠ ([([], Except.error "backend failure"),
          ([Event.runCmd ["flatpak", "list"]], Except.ok ())].map Prod.fst).flatten :=
  ⟨rfl, by decide⟩

/-- C5, amended: backends run sequentially and the run stops at the
first backend error: earlier (successful) backends have all contributed
their events, the failing backend's events are kept, later backends are
never attempted, and the single reported failure is the first error.
The process exit status is non-zero exactly when some backend in the
list failed (main maps an error result to a non-zero exit). -/
theorem c5_first_error_stops_run :
    (∀ bs : List (List Event × Except String Unit), (∀ b ∈ bs, b.2 = .ok ()) →
      main_run bs = ((bs.map Prod.fst).flatten, .ok ())) ∧
    (∀ (pre : List (List Event × Except String Unit)) (evs : List Event) (e : String)
        (post : List (List Event × Except String Unit)), (∀ b ∈ pre, b.2 = .ok ()) →
      main_run (pre ++ (evs, .error e) :: post) = ((pre.map Prod.fst).flatten ++ evs, .error e)) ∧
    (∀ bs : List (List Event × Except String Unit),
      (main_run bs).2 = .ok () ↔ ∀ b ∈ bs, b.2 = .ok ()) := by
  refine ⟨?_, ?_, ?_⟩
  · intro bs h
    induction bs with
    | nil => rfl
    | cons b rest ih =>
      obtain ⟨evs, r⟩ := b
      have hb : r = .ok () := h (evs, r) (by simp)
      subst hb
      have ih2 := ih (fun b hb2 => h b (by simp [hb2]))
      simp [main_run, ih2]
  · intro pre evs e post h
    induction pre with
    | nil => simp [main_run]
    | cons p pre ih =>
      obtain ⟨pevs, r⟩ := p
      have hb : r = .ok () := h (pevs, r) (by simp)
      subst hb
      have ih2 := ih (fun b hb2 => h b (by simp [hb2]))
      simp [main_run, ih2]
  · intro bs
    induction bs with
    | nil => simp [main_run]
    | cons b rest ih =>
      obtain ⟨evs, r⟩ := b
      cases r with
      | ok u =>
        cases u
        simp [main_run, ih]
      | error e =>
        refine iff_of_false (by simp [main_run]) ?_
        intro hall
        have := hall (evs, .error e) (by simp)
        simp at this

theorem c5_first_error_stops_run_witness :
    main_run [([Event.runCmd ["paru", "--sync", "ripgrep"]], .ok ()),
        ([], .error "cargo failed"), ([.runCmd ["flatpak", "list"]], .ok ())]
      = ([Event.runCmd ["paru", "--sync", "ripgrep"]], .error "cargo failed") ∧
    main_run [([Event.runCmd ["paru", "--sync", "ripgrep"]], .ok ())]
      = ([Event.runCmd ["paru", "--sync", "ripgrep"]], .ok ()) ∧
    ((main_run [([], Except.error "cargo failed")]).2 = .ok () ↔
      ∀ b ∈ [(([] : List Event), Except.error "cargo failed")], b.2 = .ok ()) := by
  refine ⟨?_, ?_, c5_first_error_stops_run.2.2 _⟩
  · have h := c5_first_error_stops_run.2.1
      [([Event.runCmd ["paru", "--sync", "ripgrep"]], .ok ())] [] "cargo failed"
      [([.runCmd ["flatpak", "list"]], .ok ())] (by simp)
    simpa using h
  · have h := c5_first_error_stops_run.1
      [([Event.runCmd ["paru", "--sync", "ripgrep"]], .ok ())] (by simp)
    simpa using h

/-- C6: refuted for flatpak. When the computed extra set is empty,
cargo's install and remove and arch's install issue zero commands, but
Flatpak::remove_packages has no emptiness check: with every installed
application configured it still starts
flatpak remove --user --delete-data with no package arguments, a
vacuous command the spec explicitly forbids (flatpak fails when given
no refs, making clean fail). The claim matches the spec's stated
intent, followed everywhere else in the code, so this is a code bug. -/
theorem c6_flatpak_remove_packages_vacuous_command :
    flatpak_remove_packages [("app", ⟨none, false, none⟩)] ["app"] false ⟨false, false⟩
        (fun _ => true)
      = ([.runCmd ["flatpak", "remove", "--user", "--delete-data"]], .ok ()) ∧
    cargo_install ⟨[("a", ⟨[], false, false, none, none⟩)], "install"⟩ ["a"] ⟨false, false⟩ true
        (fun _ => true) (fun _ => true) = ([], .ok ()) ∧
    cargo_remove ⟨[("a", ⟨[], false, false, none, none⟩)], "install"⟩ ["a"] ⟨false, false⟩ true
        (fun _ => true) = ([], .ok ()) ∧
    arch_install [("a", none)] "paru" ["a"] [] [] (fun _ => []) ⟨false, false⟩
        (fun _ => true) (fun _ => true) = ([], .ok ()) :=
  ⟨rfl, rfl, rfl, rfl⟩

theorem rustup_run_installs_trace_nil (l : List (String × ToolchainSpec))
    (cmdOk : List String → Bool) : (rustup_run_installs l cmdOk).1 = [] ↔ l = [] := by
  cases l with
  | nil => simp [rustup_run_installs]
  | cons t rest =>
    obtain ⟨name, spec⟩ := t
    cases hc : cmdOk (rustup_install_toolchain_args spec) <;>
      simp [rustup_run_installs, hc]

/-- The pin matching rule as the specification words it (PinSpec in the
data model section): an installed pin matches a configured pin when the
configured id is a prefix of the installed pin's id and each of the
branch and arch fields present in the configured pin equals the
corresponding field parsed from the installed pin. This definition
follows the spec's words and is compared against the source's
behaviour. -/
def spec_pin_matches (pinId : String) (branch arch : Option String)
    (installedPin : String) : Bool :=
  match parse_runtime_format installedPin false with
  | none => false
  | some (name, opts) =>
    strStartsWith name pinId &&
    (match branch with
     | some b => opts.branch == some b
     | none => true) &&
    (match arch with
     | some a => opts.arch == some a
     | none => true)

/-- C7, counterexample: with a configured pin of id foo and branch beta,
an installed pin foo/x86_64/stable (runtime foo installed), the spec's
prefix-plus-field rule reports no match (branch beta differs from
stable), yet the code issues no pin or install command: the source
matches pins by exact equality of the configured id with the parsed id
segment only and never consults the configured branch or arch, so pin
matching is not the claimed prefix-plus-field equality. -/
theorem c7_pin_matching_counterexample :
    spec_pin_matches "foo" (some "beta") none "foo/x86_64/stable" = false ∧
    flatpak_install_pins [("foo", ⟨some "beta", none, false, none⟩)] ["foo"]
        ["foo/x86_64/stable"] false ⟨false, true⟩ (fun _ => true)
      = ([], [], .ok ()) :=
  ⟨rfl, rfl⟩

theorem flatpak_run_pins_cons_ne_nil (spec : String × String × String)
    (rest : List (String × String × String)) (flag : String) (cmdOk : List String → Bool) :
    (flatpak_run_pins (spec :: rest) flag cmdOk).1 ≠ [] := by
  obtain ⟨n, b, a⟩ := spec
  cases hc : cmdOk ["flatpak", "pin", flag, n ++ b ++ a] <;> simp [flatpak_run_pins, hc]

/-- C7, amended: toolchain matching does use the prefix rule: no install
command is issued exactly when every configured toolchain id is a
prefix of some installed toolchain string; the installed string
stable-x86_64-unknown-linux-gnu (default) is first cut at the space and
then matches configured stable but not nightly. Flatpak pin matching,
however, is exact equality of the configured id against the id segment
parsed from the installed pin (restricted to pins whose runtime is
among the installed packages): a configured pin whose id is present
leads to no command at all, one whose id is absent always leads to at
least one command, independent of its branch and arch fields; in
particular the pin foo with branch stable against installed pin
foo/x86_64/stable with foo installed issues no pin or install
command. -/
theorem c7_matching_amended :
    (∀ (toolchains : List (String × ToolchainSpec)) (installed : List String)
        (cmdOk : List String → Bool),
      (rustup_install_toolchains toolchains installed cmdOk).1 = [] ↔
        ∀ tc ∈ toolchains, ∃ i ∈ installed, strStartsWith i tc.1 = true) ∧
    (toolchain_of_line "stable-x86_64-unknown-linux-gnu (default)"
        = "stable-x86_64-unknown-linux-gnu" ∧
      strStartsWith "stable-x86_64-unknown-linux-gnu" "stable" = true ∧
      strStartsWith "stable-x86_64-unknown-linux-gnu" "nightly" = false) ∧
    (∀ (pid : String) (popts : PinOpts) (installed_packages raw : List String)
        (sw : Bool) (opts : SyncCommand) (cmdOk : List String → Bool),
      (flatpak_installed_pin_ids installed_packages raw).contains pid = true →
        flatpak_install_pins [(pid, popts)] installed_packages raw sw opts cmdOk
          = ([], [], .ok ())) ∧
    (∀ (pid : String) (popts : PinOpts) (installed_packages raw : List String)
        (sw : Bool) (opts : SyncCommand) (cmdOk : List String → Bool),
      (flatpak_installed_pin_ids installed_packages raw).contains pid = false →
        (flatpak_install_pins [(pid, popts)] installed_packages raw sw opts cmdOk).1 ≠ []) ∧
    (∀ cmdOk : List String → Bool,
      flatpak_install_pins [("foo", ⟨some "stable", none, false, none⟩)] ["foo"]
          ["foo/x86_64/stable"] false ⟨false, true⟩ cmdOk = ([], [], .ok ())) := by
  refine ⟨?_, ⟨rfl, rfl, rfl⟩, ?_, ?_, fun cmdOk => rfl⟩
  · intro toolchains installed cmdOk
    unfold rustup_install_toolchains
    rw [rustup_run_installs_trace_nil]
    simp [List.filter_eq_nil_iff, List.any_eq_true]
  · intro pid popts installed_packages raw sw opts cmdOk hmem
    simp at hmem
    simp [flatpak_install_pins, hmem]
  · intro pid popts installed_packages raw sw opts cmdOk hmem
    simp only [flatpak_install_pins, List.filter_cons, List.filter_nil, hmem, Bool.not_false,
      eq_self_iff_true, if_true, List.map_cons, List.map_nil, List.isEmpty_cons,
      Bool.false_eq_true, if_false]
    rcases hrp : flatpak_run_pins
        [(pid, (popts.branch.map (fun b => "/" ++ b)).getD "",
          (popts.arch.map (fun a => "/" ++ a)).getD "")]
        (if sw then "--system" else "--user") cmdOk with ⟨evs, r⟩
    have hne : evs ≠ [] := by
      have h2 := flatpak_run_pins_cons_ne_nil
        (pid, (popts.branch.map (fun b => "/" ++ b)).getD "",
          (popts.arch.map (fun a => "/" ++ a)).getD "") []
        (if sw then "--system" else "--user") cmdOk
      rw [hrp] at h2
      exact h2
    cases r with
    | error e => simpa using hne
    | ok u =>
      cases hd : opts.dry_run
      · simp only [hd, Bool.false_eq_true, if_false]
        split <;> try split
        all_goals simp [hne]
      · simp [hd, hne]

theorem c7_matching_amended_witness :
    ((rustup_install_toolchains [("stable", ⟨[], []⟩)] ["stable-x86_64-unknown-linux-gnu"]
        (fun _ => true)).1 = [] ↔
      ∀ tc ∈ [("stable", (⟨[], []⟩ : ToolchainSpec))],
        ∃ i ∈ ["stable-x86_64-unknown-linux-gnu"], strStartsWith i tc.1 = true) ∧
    flatpak_install_pins [("foo", ⟨some "stable", none, false, none⟩)] ["foo"]
        ["foo/x86_64/stable"] false ⟨false, true⟩ (fun _ => false) = ([], [], .ok ()) ∧
    (flatpak_install_pins [("bar", ⟨none, none, false, none⟩)] ["foo"]
        ["foo/x86_64/stable"] false ⟨false, true⟩ (fun _ => true)).1 ≠ [] := by
  refine ⟨c7_matching_amended.1 _ _ _, ?_, ?_⟩
  · exact c7_matching_amended.2.2.1 "foo" ⟨some "stable", none, false, none⟩ ["foo"]
      ["foo/x86_64/stable"] false ⟨false, true⟩ (fun _ => false) rfl
  · exact c7_matching_amended.2.2.2.1 "bar" ⟨none, none, false, none⟩ ["foo"]
      ["foo/x86_64/stable"] false ⟨false, true⟩ (fun _ => true) rfl

theorem strStartsWith_self (s : String) : strStartsWith s s = true := by
  simp [strStartsWith, List.isPrefixOf_iff_prefix]

/-- C8: during component reconciliation the set of prefixes that makes
an installed component non-extra is the union of the configured
components and the fixed default set cargo, clippy, rust-docs,
rust-std, rust-src, rustc, rustfmt: a component is extra exactly when
it is installed and starts with none of them; consequently an installed
component that belongs to the default set is never part of the
components handed to the remove command. -/
theorem c8_default_components_never_extra :
    (∀ (configured installed : List String) (c : String),
      c ∈ rustup_extra_components configured installed ↔
        (c ∈ installed ∧ ∀ p, (p ∈ configured ∨ p ∈ DEFAULT_COMPONENTS) →
          ¬ strStartsWith c p = true)) ∧
    (∀ (configured installed : List String) (c : String), c ∈ DEFAULT_COMPONENTS →
      c ∉ rustup_extra_components configured installed) := by
  have hmem : ∀ (configured installed : List String) (c : String),
      c ∈ rustup_extra_components configured installed ↔
        (c ∈ installed ∧ ∀ p, (p ∈ configured ∨ p ∈ DEFAULT_COMPONENTS) →
          ¬ strStartsWith c p = true) := by
    intro configured installed c
    simp [rustup_extra_components, List.mem_filter, List.any_eq_true, List.mem_append]
    intro _
    constructor
    · rintro ⟨h1, h2⟩ p hp
      rcases hp with hp | hp
      · exact h1 p hp
      · exact h2 p hp
    · intro h
      exact ⟨fun x hx => h x (Or.inl hx), fun x hx => h x (Or.inr hx)⟩
  refine ⟨hmem, ?_⟩
  intro configured installed c hc hin
  have h := ((hmem configured installed c).mp hin).2 c (Or.inr hc)
  exact h (strStartsWith_self c)

theorem c8_default_components_never_extra_witness :
    ("rustfmt" ∉ rustup_extra_components ["miri"] ["rustfmt", "lldb-preview"]) ∧
    ("rustfmt" ∈ rustup_extra_components ["miri"] ["rustfmt", "lldb-preview"] ↔
      ("rustfmt" ∈ ["rustfmt", "lldb-preview"] ∧
        ∀ p, (p ∈ ["miri"] ∨ p ∈ DEFAULT_COMPONENTS) → ¬ strStartsWith "rustfmt" p = true)) :=
  ⟨c8_default_components_never_extra.2 ["miri"] ["rustfmt", "lldb-preview"] "rustfmt" (by decide),
   c8_default_components_never_extra.1 ["miri"] ["rustfmt", "lldb-preview"] "rustfmt"⟩

theorem collectExcept_error_of_mem {a : Type} {items : List NuValue}
    {f : NuValue → Except String a} {v : NuValue} (hv : v ∈ items) {e : String}
    (he : f v = .error e) : ∃ e2, collectExcept items f = .error e2 := by
  induction items with
  | nil => cases hv
  | cons x xs ih =>
    rcases List.mem_cons.mp hv with hvx | hvxs
    · subst hvx
      exact ⟨e, by simp [collectExcept, he]⟩
    · cases hfx : f x with
      | error e3 => exact ⟨e3, by simp [collectExcept, hfx]⟩
      | ok y =>
        obtain ⟨e2, hc⟩ := ih hvxs
        exact ⟨e2, by simp [collectExcept, hfx, hc]⟩

/-- C9: parsing strictness differs by entity class. For cargo's package
list, a missing or non-list packages value is a hard error for the
whole backend, and one malformed entry anywhere in the list is also a
hard error (the entry is never skipped); for flatpak pins and remotes a
malformed individual entry is dropped and the remaining entries of the
batch parse exactly as if the bad entry were absent. -/
theorem c9_parse_strictness :
    (∀ (value : NuRecord) (binstall : Bool),
      recordGet value "packages" = none → ∃ e, cargo_new value binstall = .error e) ∧
    (∀ (value : NuRecord) (binstall : Bool) (pl : NuValue),
      recordGet value "packages" = some pl → pl.as_list = none →
        ∃ e, cargo_new value binstall = .error e) ∧
    (∀ (value : NuRecord) (binstall : Bool) (items : List NuValue) (v : NuValue) (e : String),
      recordGet value "packages" = some (.list items) → v ∈ items →
        cargo_value_to_pkgspec v = .error e → ∃ e2, cargo_new value binstall = .error e2) ∧
    (∀ (values1 values2 : List NuValue) (v : NuValue) (ds : Bool) (e : String),
      flatpak_value_to_pinspec v ds = .error e →
        flatpak_values_to_pins (values1 ++ v :: values2) ds
          = flatpak_values_to_pins (values1 ++ values2) ds) ∧
    (∀ (values1 values2 : List NuValue) (v : NuValue),
      extract_remote v = none →
        flatpak_values_to_remotes (values1 ++ v :: values2)
          = flatpak_values_to_remotes (values1 ++ values2)) := by
  refine ⟨?_, ?_, ?_, ?_, ?_⟩
  · intro value binstall h
    exact ⟨"Failed to get packages for Cargo", by simp [cargo_new, h]⟩
  · intro value binstall pl h1 h2
    exact ⟨"Packages not a list for Cargo", by simp [cargo_new, h1, h2]⟩
  · intro value binstall items v e h1 hv he
    obtain ⟨e2, hc⟩ := collectExcept_error_of_mem hv he
    exact ⟨e2, by simp [cargo_new, h1, NuValue.as_list, hc]⟩
  · intro values1 values2 v ds e he
    simp [flatpak_values_to_pins, List.filterMap_append, List.filterMap_cons, he,
      Except.toOption]
  · intro values1 values2 v he
    simp [flatpak_values_to_remotes, List.filterMap_append, List.filterMap_cons, he]

theorem c9_parse_strictness_witness :
    (∃ e, cargo_new [("pkgs", .list [])] true = .error e) ∧
    (∃ e, cargo_new [("packages", .bool true)] true = .error e) ∧
    (∃ e2, cargo_new [("packages", .list [.bool true])] false = .error e2) ∧
    (flatpak_values_to_pins [.record [("package", .str "a")], .bool true] false
      = flatpak_values_to_pins [.record [("package", .str "a")]] false) ∧
    (flatpak_values_to_remotes [.record [("package", .str "a"), ("url", .str "u")], .int 3]
      = flatpak_values_to_remotes [.record [("package", .str "a"), ("url", .str "u")]]) := by
  refine ⟨?_, ?_, ?_, ?_, ?_⟩
  · exact c9_parse_strictness.1 [("pkgs", .list [])] true rfl
  · exact c9_parse_strictness.2.1 [("packages", .bool true)] true (.bool true) rfl rfl
  · exact c9_parse_strictness.2.2.1 [("packages", .list [.bool true])] false [.bool true]
      (.bool true) "Failed to parse value" rfl (by simp) rfl
  · have h := c9_parse_strictness.2.2.2.1 [.record [("package", .str "a")]] [] (.bool true)
      false "pinspec is not a record" rfl
    simpa using h
  · have h := c9_parse_strictness.2.2.2.2 [.record [("package", .str "a"), ("url", .str "u")]]
      [] (.int 3) rfl
    simpa using h

/-- C10: in binstall mode, when the binstall log cannot be read,
Cargo::get_installed_packages returns Ok with the empty set even though
the names from .crates2.json were already parsed successfully: those
names are discarded, so every configured cargo package is subsequently
treated as missing. In plain install mode the same .crates2.json
content is returned as the installed set. -/
theorem c10_binstall_read_error_discards_source :
    (∀ (pkgs : List (String × CargoOpts)) (crate : List Char) (names : List (List Char))
        (binExists : List Char → Bool),
      get_installed_packages_source crate = .ok names →
        cargo_get_installed_packages ⟨pkgs, "binstall"⟩ (some crate) none binExists
          = .ok []) ∧
    (∀ (pkgs : List (String × CargoOpts)) (crate : List Char) (names : List (List Char))
        (binExists : List Char → Bool),
      get_installed_packages_source crate = .ok names →
        cargo_get_installed_packages ⟨pkgs, "install"⟩ (some crate) none binExists
          = .ok names) := by
  constructor
  · intro pkgs crate names binExists h
    simp [cargo_get_installed_packages, h]
  · intro pkgs crate names binExists h
    simp [cargo_get_installed_packages, h]

theorem c10_binstall_read_error_discards_source_witness :
    cargo_get_installed_packages ⟨[], "binstall"⟩
        (some (ser (Json.obj [(installsKey,
          .obj [("ripgrep 14.1.0 (registry)".data, .obj [])])]))) none (fun _ => true)
      = .ok [] ∧
    cargo_get_installed_packages ⟨[], "install"⟩
        (some (ser (Json.obj [(installsKey,
          .obj [("ripgrep 14.1.0 (registry)".data, .obj [])])]))) none (fun _ => true)
      = .ok ["ripgrep".data] :=
  ⟨c10_binstall_read_error_discards_source.1 []
      (ser (Json.obj [(installsKey, .obj [("ripgrep 14.1.0 (registry)".data, .obj [])])]))
      ["ripgrep".data] (fun _ => true) rfl,
   c10_binstall_read_error_discards_source.2 []
      (ser (Json.obj [(installsKey, .obj [("ripgrep 14.1.0 (registry)".data, .obj [])])]))
      ["ripgrep".data] (fun _ => true) rfl⟩
